import Mathlib

/-!
Verification of the `crawler` package (`src/crawler/crawler.go`) of the
ciprian-test/web-crawler repository.  The Go source is shallowly embedded:
pure helper functions become Lean functions on `String` / `List Char`;
the external libraries (`net/url`, `net/http`, `golang.org/x/net/html`)
are modelled abstractly (a `URLLib` record of operations, an `HNode`
tree standing for the parser's output, an abstract per-URL fetch
outcome), and the concurrent crawl loop becomes a small-step transition
system whose atomic steps are exactly the mutex-protected regions of
`crawlURL`.
-/

namespace Crawler

/-! ## Go string primitives used by the source -/

/-- Index search loop behind Go's `strings.Index`: returns the position of
the first occurrence of `sub` in `s` (as an offset added to `i`), or
`none`.  ASCII inputs only, so byte indices and character indices agree. -/
def indexOfAux (sub : List Char) : List Char → Nat → Option Nat
  | [], i => if sub.isPrefixOf ([] : List Char) then some i else none
  | c :: t, i => if sub.isPrefixOf (c :: t) then some i else indexOfAux sub t (i + 1)

/-- Go `strings.Index(s, sub)`: first occurrence index, `-1` when absent. -/
def goIndex (s sub : String) : Int :=
  match indexOfAux sub.data s.data 0 with
  | some i => (i : Int)
  | none => -1

/-- Go `strings.Contains(s, sub)` (defined as `Index(s, sub) >= 0`). -/
def goContains (s sub : String) : Bool :=
  (indexOfAux sub.data s.data 0).isSome

/-! ## Domain policy (crawler.go lines 250-276) -/

/-- Embedding of `Crawler.isDomainAllowed` (crawler.go 250-258): a domain is
allowed when some configured entry equals it, or when `"." + entry` occurs
in it at a position strictly greater than zero (Go
`strings.Index(domain, "."+allowedDomain) > 0`). -/
def isDomainAllowed (allowedDomains : List String) (domain : String) : Bool :=
  allowedDomains.any fun allowedDomain =>
    allowedDomain == domain || decide (goIndex domain ("." ++ allowedDomain) > 0)

/-! ## The external URL library, modelled abstractly -/

/-- Model of Go's `net/url.URL` value as far as the crawler uses it:
scheme, host, path, query and fragment components. -/
structure GoURL where
  scheme : String
  host : String
  path : String
  query : String
  fragment : String
deriving DecidableEq

/-- Abstract interface of the external `net/url` library: `parse` models
`url.Parse`, `resolveRef base ref` models `base.Parse(ref)` (resolution of
a possibly-relative reference against a base), and `render` models
`(*URL).String()`.  The crawler source is parameterised over this record. -/
structure URLLib where
  parse : String → Option GoURL
  resolveRef : GoURL → String → Option GoURL
  render : GoURL → String

/-- Embedding of `resolveURL` (crawler.go 278-287): resolve `link` against
`baseURL`; on a resolution error return `""`; otherwise clear the fragment
and render the URL. -/
def resolveURL (lib : URLLib) (link : String) (baseURL : GoURL) : String :=
  match lib.resolveRef baseURL link with
  | none => ""
  | some parsed => lib.render { parsed with fragment := "" }

/-- Embedding of `Crawler.isDomainAllowedForLink` (crawler.go 260-267). -/
def isDomainAllowedForLink (lib : URLLib) (allowedDomains : List String) (link : String) : Bool :=
  match lib.parse link with
  | none => false
  | some linkURL => isDomainAllowed allowedDomains linkURL.host

/-- Embedding of `Crawler.isLocationAllowed` (crawler.go 269-276). -/
def isLocationAllowed (lib : URLLib) (allowedDomains : List String) (location : String) : Bool :=
  match lib.parse location with
  | none => false
  | some locationURL => isDomainAllowed allowedDomains locationURL.host

/-- Embedding of `uniqueStrings` (crawler.go 289-301), written with the
`seen` set as an explicit accumulator; keeps first occurrences in order. -/
def uniqueStringsAux : List String → List String → List String
  | [], _ => []
  | s :: rest, seen =>
    if s ∈ seen then uniqueStringsAux rest seen
    else s :: uniqueStringsAux rest (s :: seen)

/-- Embedding of `uniqueStrings` (crawler.go 289-301). -/
def uniqueStrings (input : List String) : List String :=
  uniqueStringsAux input []

/-! ## HTML trees and the structured-markup extractor -/

mutual
/-- Model of the output of `golang.org/x/net/html.Parse`, mirroring the
`FirstChild` / `NextSibling` shape of `html.Node`: a node records whether
it is an element node (`html.ElementNode`), its `Data` (tag name), its
attribute list in document order, and its children. -/
inductive HNode where
  | node (isElem : Bool) (data : String) (attrs : List (String × String)) (children : HForest)
/-- Sibling list of `HNode` children, mirroring the `FirstChild` /
`NextSibling` chain. -/
inductive HForest where
  | nil
  | cons (head : HNode) (tail : HForest)
end

/-- Result mapping built by the extractors: the Go `map[string]bool`,
modelled as a partial function (assignment overwrites). -/
def Lmap := String → Option Bool

/-- Go map assignment `m[k] = v`. -/
def mapInsert (m : Lmap) (k : String) (v : Bool) : Lmap :=
  fun x => if x = k then some v else m x

/-- The empty `map[string]bool`. -/
def emptyLmap : Lmap := fun _ => none

/-- Embedding of `getAttributeValue` (crawler.go 303-313): scan the
attributes in document order (outer loop) and return the value of the
first attribute whose key is one of `keys` (inner loop); `""` if none. -/
def getAttributeValue (attrs : List (String × String)) (keys : List String) : String :=
  match attrs with
  | [] => ""
  | attr :: rest =>
    if keys.any (fun key => attr.1 == key) then attr.2
    else getAttributeValue rest keys

/-- Per-node body of the `traverse` closure in `extractLinksFromHTML`
(crawler.go 220-240): the `switch n.Data` over element nodes. -/
def processNode (lib : URLLib) (baseURL : GoURL) (isElem : Bool) (data : String)
    (attrs : List (String × String)) (m : Lmap) : Lmap :=
  if isElem then
    if data == "img" then
      let val := getAttributeValue attrs ["src"]
      if val.length > 0 then mapInsert m (resolveURL lib val baseURL) false else m
    else if data == "a" || data == "link" || data == "iframe" || data == "embed"
        || data == "object" || data == "source" || data == "script" then
      let val := getAttributeValue attrs ["src", "href"]
      if val.length > 0 then mapInsert m (resolveURL lib val baseURL) true else m
    else if data == "form" then
      let val := getAttributeValue attrs ["action"]
      if val.length > 0 then mapInsert m (resolveURL lib val baseURL) false else m
    else m
  else m

mutual
/-- Embedding of the recursive `traverse` closure of `extractLinksFromHTML`
(crawler.go 219-245): process the node, then its children left to right,
threading the shared map. -/
def traverseNode (lib : URLLib) (baseURL : GoURL) : HNode → Lmap → Lmap
  | .node e d a cs, m => traverseForest lib baseURL cs (processNode lib baseURL e d a m)
/-- Traversal of a sibling chain, threading the shared map. -/
def traverseForest (lib : URLLib) (baseURL : GoURL) : HForest → Lmap → Lmap
  | .nil, m => m
  | .cons h t, m => traverseForest lib baseURL t (traverseNode lib baseURL h m)
end

/-- Embedding of `Crawler.extractLinksFromHTML` (crawler.go 211-248) applied
to an already-parsed document tree (the `html.Parse` call itself is the
external parser; its possible failure is handled in `extractLinks`). -/
def extractLinksFromHTML (lib : URLLib) (baseURL : GoURL) (doc : HNode) : Lmap :=
  traverseNode lib baseURL doc emptyLmap

/-! ## The generic-text URL scanner (`findLinkRegexp`) -/

/-- Character class `\s` of Go's RE2 regexp engine. -/
def isGoSpace (c : Char) : Bool :=
  c == ' ' || c == '\t' || c == '\n' || c == '\r' || c == Char.ofNat 12

/-- The single-quote character, written by code point. -/
def quoteChar : Char := Char.ofNat 39

/-- Character class `[^\s"']` of `findLinkRegexp` (crawler.go 19). -/
def isURLChar (c : Char) : Bool :=
  !(isGoSpace c) && c != '"' && c != quoteChar

/-- Attempt to match `https?://[^\s"']+` at the head of `s`; on success
return the matched text and the remainder after it.  The optional `s` is
resolved greedily exactly as RE2 does (an `https://` head can never also
match via the empty alternative, since `:` would be required where `s`
stands). -/
def matchLinkAt (s : List Char) : Option (List Char × List Char) :=
  if "https://".data.isPrefixOf s then
    let rest := s.drop 8
    let run := rest.takeWhile isURLChar
    if run.length > 0 then some ("https://".data ++ run, rest.drop run.length) else none
  else if "http://".data.isPrefixOf s then
    let rest := s.drop 7
    let run := rest.takeWhile isURLChar
    if run.length > 0 then some ("http://".data ++ run, rest.drop run.length) else none
  else none

/-- Scanning loop of `FindAllString(findLinkRegexp, body, -1)`: try each
start position left to right; on a match, emit it and continue after its
end.  The `Nat` argument is fuel, always instantiated with the input
length (each step consumes at least one character). -/
def scanLinksAux : Nat → List Char → List String
  | 0, _ => []
  | _ + 1, [] => []
  | fuel + 1, c :: t =>
    match matchLinkAt (c :: t) with
    | some (m, rest) => String.mk m :: scanLinksAux fuel rest
    | none => scanLinksAux fuel t

/-- Model of `findLinkRegexp.FindAllString(body, -1)` (crawler.go 19, 325):
the successive non-overlapping leftmost matches of `https?://[^\s"']+`. -/
def goFindAllLinks (body : String) : List String :=
  scanLinksAux body.data.length body.data

/-- Embedding of `extractLinksFromFile` (crawler.go 324-334): every match
of the URL pattern is resolved against `baseURL` and recorded with
`shouldTraverse = true`. -/
def extractLinksFromFile (lib : URLLib) (body : String) (baseURL : GoURL) : Lmap :=
  (goFindAllLinks body).foldl
    (fun newLinks mtch => mapInsert newLinks (resolveURL lib mtch baseURL) true)
    emptyLmap

/-! ## The meta-refresh scanner (`findMetaRefreshRegexp`) -/

/-- Consume a literal prefix, or fail. -/
def expectLit (lit : List Char) (s : List Char) : Option (List Char) :=
  if lit.isPrefixOf s then some (s.drop lit.length) else none

/-- Consume `\s+` (at least one RE2 whitespace character), greedily. -/
def expectSpaces1 (s : List Char) : Option (List Char) :=
  let sp := s.takeWhile isGoSpace
  if sp.length > 0 then some (s.drop sp.length) else none

/-- Consume the optional quote of `["']?` greedily.  Used at the positions
of the pattern where the greedy and the skipping alternative can never
both succeed, so the choice is deterministic. -/
def skipOptQuote (s : List Char) : List Char :=
  match s with
  | c :: t => if c == '"' || c == quoteChar then t else c :: t
  | [] => []

/-- Match the `[^;]+;\s*url=([^"']+)["']?` tail of `findMetaRefreshRegexp`
(crawler.go 18) and return the capture group. -/
def metaAfterContent (s : List Char) : Option (List Char) :=
  let content := s.takeWhile (fun c => c != ';')
  if content.length = 0 then none
  else
    match s.drop content.length with
    | c :: s1 =>
      if c == ';' then
        let s2 := s1.dropWhile isGoSpace
        (expectLit "url=".data s2).bind fun s3 =>
          let cap := s3.takeWhile (fun c2 => c2 != '"' && c2 != quoteChar)
          if cap.length > 0 then some cap else none
      else none
    | [] => none

/-- Match `["']?[^;]+;\s*url=([^"']+)["']?` with RE2's preference order:
the optional quote is consumed greedily, and on failure of the remainder
the skipping alternative is tried (here `[^;]` can itself match a quote). -/
def metaContentPart (s : List Char) : Option (List Char) :=
  match s with
  | c :: t =>
    if c == '"' || c == quoteChar then
      match metaAfterContent t with
      | some cap => some cap
      | none => metaAfterContent (c :: t)
    else metaAfterContent (c :: t)
  | [] => none

/-- Attempt a full match of `findMetaRefreshRegexp` at the head of `s`,
returning the capture group (the redirect target). -/
def metaCaptureAt (s : List Char) : Option (List Char) :=
  (expectLit "<meta".data s).bind fun s1 =>
  (expectSpaces1 s1).bind fun s2 =>
  (expectLit "http-equiv=".data s2).bind fun s3 =>
  (expectLit "refresh".data (skipOptQuote s3)).bind fun s5 =>
  (expectSpaces1 (skipOptQuote s5)).bind fun s7 =>
  (expectLit "content=".data s7).bind fun s8 =>
  metaContentPart s8

/-- Leftmost-match search of `FindStringSubmatch`: try every start
position from the left. -/
def findMetaAux : List Char → Option (List Char)
  | [] => none
  | c :: t =>
    match metaCaptureAt (c :: t) with
    | some cap => some cap
    | none => findMetaAux t

/-- Embedding of `extractMetaRefresh` (crawler.go 315-322): the capture
group of the first `findMetaRefreshRegexp` match, or `""`. -/
def extractMetaRefresh (body : String) : String :=
  match findMetaAux body.data with
  | some cap => String.mk cap
  | none => ""

/-! ## Content-type dispatch -/

/-- Embedding of `Crawler.extractLinks` (crawler.go 191-208).  `parseHTML`
models the external `html.Parse` (returning `none` on a parse error);
content types containing `/javascript` or `/css` dispatch to the
generic-text scanner, everything else to the markup extractor followed by
the meta-refresh insertion. -/
def extractLinks (lib : URLLib) (parseHTML : String → Option HNode) (baseURL : GoURL)
    (body : String) (contentType : String) : Option Lmap :=
  if goContains contentType "/javascript" || goContains contentType "/css" then
    some (extractLinksFromFile lib body baseURL)
  else
    match parseHTML body with
    | none => none
    | some doc =>
      let linksDetails := extractLinksFromHTML lib baseURL doc
      let metaRefresh := extractMetaRefresh body
      if metaRefresh != "" then
        some (mapInsert linksDetails (resolveURL lib metaRefresh baseURL) true)
      else
        some linksDetails

/-! ## Fetcher outcome classification (`getURL`) -/

/-- Outcome of `getURL` (crawler.go 151-188) once a response has arrived:
either a body with its content type, a redirect location with its content
type, or a failure message. -/
inductive GetResult where
  | success (body contentType : String)
  | redirect (location contentType : String)
  | failure (msg : String)
deriving DecidableEq

/-- The failure message `fmt.Errorf("%d status code", ...)` of getURL. -/
def statusMsg (code : Nat) : String := toString code ++ " status code"

/-- Embedding of the response classification of `getURL` (crawler.go
170-187): statuses 301 (`StatusMovedPermanently`), 302 (`StatusFound`) and
308 (`StatusPermanentRedirect`) yield the `Location` header unresolved,
together with the content type; any other status different from 200
(`StatusOK`) is a failure carrying the numeric code; 200 yields the body
and content type. -/
def classifyResponse (statusCode : Nat) (contentType location body : String) : GetResult :=
  if statusCode == 301 || statusCode == 302 || statusCode == 308 then
    .redirect location contentType
  else if statusCode != 200 then
    .failure (statusMsg statusCode)
  else
    .success body contentType

/-! ## The crawl loop as a transition system

`crawlURL` (crawler.go 84-149) runs one task per scheduled URL.  Its
accesses to the shared `discoveredLinks` map happen in exactly two
mutex-protected regions: the admission check-and-insert (lines 91-107)
and the post-extraction leaf-insertion loop (lines 132-140).  We model a
crawl run as interleavings of these two atomic phases: a `CTask.start u`
task is the admission phase of `crawlURL(u)`, and a `CTask.finish u` task
is the continuation of an admitted task after its fetch.  The registry is
modelled by its key list (`discoveredLinks` keys); the network and the
extraction pipeline between the two phases are summarised by an abstract
per-URL `FetchOutcome`, determined by the server responses. -/

/-- Outcome of the fetch-and-extract pipeline for one admitted URL:
`getURL` fails, or returns a redirect location (`len(location) > 0`), or
returns a body from which `extractLinks` produces the listed entries
(some enumeration of the extraction map), or `extractLinks` fails. -/
inductive FetchOutcome where
  | fetchErr
  | redirect (location : String)
  | page (entries : List (String × Bool))
  | extractFail
deriving DecidableEq

/-- A crawler configuration: the URL library, the configured allow-list,
and the (deterministic) fetch-and-extract outcome of every URL. -/
structure CrawlCfg where
  lib : URLLib
  allowedDomains : List String
  outcome : String → FetchOutcome

/-- A scheduled unit of work: the admission phase of `crawlURL(u)`, or the
post-fetch phase of an already-admitted `crawlURL(u)`. -/
inductive CTask where
  | start (u : String)
  | finish (u : String)
deriving DecidableEq

/-- URL a task is working on. -/
def taskURL : CTask → String
  | .start u => u
  | .finish u => u

/-- Shared crawl state: the key list of `discoveredLinks`, and the
scheduled-but-unfinished tasks (the outstanding work of `sync.WaitGroup`). -/
structure CrawlState where
  reg : List String
  tasks : List CTask
deriving DecidableEq

/-- Admission phase of `crawlURL` (crawler.go 91-107), one atomic
mutex-protected step: if the link is already a key, do nothing; if it does
not parse or its host is not allowed, do nothing; otherwise insert it and
continue to the fetch.  Returns the new registry, the continuation tasks,
and whether the task proceeds to fetch the URL. -/
def startResult (cfg : CrawlCfg) (reg : List String) (u : String) :
    List String × List CTask × Bool :=
  if u ∈ reg then (reg, [], false)
  else
    match cfg.lib.parse u with
    | none => (reg, [], false)
    | some baseURL =>
      if isDomainAllowed cfg.allowedDomains baseURL.host then
        (u :: reg, [CTask.finish u], true)
      else (reg, [], false)

/-- Go map assignment `discoveredLinks[link] = ...` on the key list. -/
def regInsert (reg : List String) (k : String) : List String :=
  if k ∈ reg then reg else k :: reg

/-- One iteration of the partition loop of `crawlURL` (crawler.go
133-139): a `needsCrawling` entry joins the traversal candidates, a leaf
entry whose link passes the domain policy is inserted into the registry
directly. -/
def leafStep (cfg : CrawlCfg) (acc : List String × List String) (e : String × Bool) :
    List String × List String :=
  if e.2 then (acc.1, acc.2 ++ [e.1])
  else if isDomainAllowedForLink cfg.lib cfg.allowedDomains e.1 then
    (regInsert acc.1 e.1, acc.2)
  else acc

/-- The whole partition loop of `crawlURL` (crawler.go 132-140). -/
def leafFold (cfg : CrawlCfg) (reg : List String) (entries : List (String × Bool)) :
    List String × List String :=
  entries.foldl (leafStep cfg) (reg, [])

/-- Post-fetch phase of `crawlURL` (crawler.go 109-148): on a fetch error
or extraction error nothing happens; on a redirect the resolved location
is scheduled when allowed (crawler.go 118-124); on a body the extraction
entries are partitioned, leaves are admitted directly, and the
deduplicated traversal candidates are scheduled (crawler.go 125-148).
Returns the new registry and the URLs to schedule. -/
def finishResult (cfg : CrawlCfg) (reg : List String) (u : String) :
    List String × List String :=
  match cfg.lib.parse u with
  | none => (reg, [])
  | some baseURL =>
    match cfg.outcome u with
    | .fetchErr => (reg, [])
    | .extractFail => (reg, [])
    | .redirect location =>
      let newLocationURL := resolveURL cfg.lib location baseURL
      (reg,
        if isLocationAllowed cfg.lib cfg.allowedDomains newLocationURL then [newLocationURL]
        else [])
    | .page entries =>
      let r := leafFold cfg reg entries
      (r.1, uniqueStrings r.2)

/-- URLs scheduled by the post-fetch phase of `crawlURL(u)`; this does not
depend on the registry contents (proved in `finishResult_snd_indep`). -/
def spawnOf (cfg : CrawlCfg) (u : String) : List String :=
  (finishResult cfg [] u).2

/-- Small-step relation of a crawl run: any scheduled task may run its
next atomic phase.  The event list records the URL fetched by the step
(`getURL` runs exactly when the admission phase succeeds), empty
otherwise. -/
inductive Step (cfg : CrawlCfg) : CrawlState → List String → CrawlState → Prop where
  | startT (reg : List String) (l1 l2 : List CTask) (u : String) :
      Step cfg ⟨reg, l1 ++ CTask.start u :: l2⟩
        (if (startResult cfg reg u).2.2 then [u] else [])
        ⟨(startResult cfg reg u).1, l1 ++ (startResult cfg reg u).2.1 ++ l2⟩
  | finishT (reg : List String) (l1 l2 : List CTask) (u : String) :
      Step cfg ⟨reg, l1 ++ CTask.finish u :: l2⟩ []
        ⟨(finishResult cfg reg u).1, l1 ++ ((finishResult cfg reg u).2.map CTask.start) ++ l2⟩

/-- Reachability along crawl steps, accumulating the fetched URLs. -/
inductive Reach (cfg : CrawlCfg) : CrawlState → List String → CrawlState → Prop where
  | refl (s : CrawlState) : Reach cfg s [] s
  | step {s s1 s2 : CrawlState} {fs ev : List String} :
      Reach cfg s fs s1 → Step cfg s1 ev s2 → Reach cfg s (fs ++ ev) s2

/-- Initial state of `Crawl(startURL)` (crawler.go 45-52): empty registry,
one scheduled `crawlURL(startURL)` task. -/
def initState (u0 : String) : CrawlState :=
  ⟨[], [CTask.start u0]⟩

/-! ## A small concrete `URLLib` instance

The crawler consumes `net/url` as a black box; for evaluating the
embedding on concrete inputs we provide a small instance handling plain
`http(s)` URLs: absolute URLs are split into scheme, host, path, query
and fragment; a reference starting with `:` fails to parse (as Go's
`missing protocol scheme` error does); a host containing a space is
invalid; root-relative and path-relative references are resolved against
the base. -/

/-- Split `l` at the first occurrence of `sep`: the part before it, and
the part after it when present. -/
def splitOnChar (sep : Char) (l : List Char) : List Char × Option (List Char) :=
  let before := l.takeWhile (fun c => c != sep)
  match l.drop before.length with
  | [] => (before, none)
  | _ :: t => (before, some t)

/-- Parse an absolute `http(s)` URL into its components. -/
def parseAbs (s : String) : Option GoURL :=
  let d := s.data
  let schemeRest : Option (String × List Char) :=
    if "https://".data.isPrefixOf d then some ("https", d.drop 8)
    else if "http://".data.isPrefixOf d then some ("http", d.drop 7)
    else none
  match schemeRest with
  | none => none
  | some (scheme, rest) =>
    let host := rest.takeWhile (fun c => c != '/' && c != '?' && c != '#')
    if host.length = 0 || host.contains ' ' then none
    else
      let after := rest.drop host.length
      let (beforeFrag, fragPart) := splitOnChar '#' after
      let (pathPart, queryPart) := splitOnChar '?' beforeFrag
      some ⟨scheme, String.mk host, String.mk pathPart,
        String.mk (queryPart.getD []), String.mk (fragPart.getD [])⟩

/-- Render a URL back to a string (model of `(*url.URL).String()` for the
simple URLs above). -/
def renderURL (u : GoURL) : String :=
  u.scheme ++ "://" ++ u.host ++ u.path
    ++ (if u.query = "" then "" else "?" ++ u.query)
    ++ (if u.fragment = "" then "" else "#" ++ u.fragment)

/-- Directory part of a path, for resolving path-relative references. -/
def dirOf (path : String) : String :=
  let kept := (path.data.reverse.dropWhile (fun c => c != '/')).reverse
  if kept.length = 0 then "/" else String.mk kept

/-- Model of `base.Parse(ref)` for the simple instance. -/
def simpleResolve (base : GoURL) (ref : String) : Option GoURL :=
  let d := ref.data
  if "https://".data.isPrefixOf d || "http://".data.isPrefixOf d then parseAbs ref
  else
    match d with
    | [] => some { base with query := "", fragment := "" }
    | c :: _ =>
      if c == ':' then none
      else if d.contains ' ' then none
      else
        let (beforeFrag, fragPart) := splitOnChar '#' d
        let (pathPart, queryPart) := splitOnChar '?' beforeFrag
        let newPath :=
          if c == '/' then String.mk pathPart
          else dirOf base.path ++ String.mk pathPart
        some ⟨base.scheme, base.host, newPath, String.mk (queryPart.getD []),
          String.mk (fragPart.getD [])⟩

/-- Model of `url.Parse` for the simple instance: absolute URLs as above,
relative references become URLs with an empty host, and a leading `:`
fails. -/
def simpleParse (s : String) : Option GoURL :=
  let d := s.data
  if "https://".data.isPrefixOf d || "http://".data.isPrefixOf d then parseAbs s
  else
    match d with
    | [] => some ⟨"", "", "", "", ""⟩
    | c :: _ =>
      if c == ':' then none
      else if d.contains ' ' then none
      else
        let (beforeFrag, fragPart) := splitOnChar '#' d
        let (pathPart, queryPart) := splitOnChar '?' beforeFrag
        some ⟨"", "", String.mk pathPart, String.mk (queryPart.getD []),
          String.mk (fragPart.getD [])⟩

/-- The simple concrete URL library instance. -/
def simpleLib : URLLib :=
  ⟨simpleParse, simpleResolve, renderURL⟩

/-! ## Spec-side comparison definition for the domain policy -/

/-- Domain predicate following the specification's words (spec §4.2): true
iff the allow-list is non-empty and the host equals an entry or ends with
`"." + entry` (proper-subdomain suffix match).  Stated for comparison with
the source's `isDomainAllowed`. -/
def specDomainAllowed (allowedDomains : List String) (host : String) : Bool :=
  !allowedDomains.isEmpty &&
    allowedDomains.any fun entry =>
      entry == host || ("." ++ entry).data.isSuffixOf host.data

/-! ## Claim C3 — domain policy suffix match -/

/-- C3: the claim says `isDomainAllowed` is a suffix match ("ends with
`"." + entry`", "no false-positive substring match").  The code instead
tests `strings.Index(domain, "."+allowedDomain) > 0`, an infix match: the
host `a.example.com.evil.org` is allowed by the code under the allow-list
`["example.com"]`, although it neither equals `example.com` nor ends in
`.example.com` — the crawler will leave the allow-listed domain.  The
claim (and the code's own comments, "Only crawl links from these
domains") state the intent; the infix test is the slip.  The first two
conjuncts evaluate the code and the spec predicate at the failing input;
the last two check the claim's stated examples, on which both agree. -/
theorem domain_policy_infix_bug :
    isDomainAllowed ["example.com"] "a.example.com.evil.org" = true
    ∧ specDomainAllowed ["example.com"] "a.example.com.evil.org" = false
    ∧ isDomainAllowed ["example.com"] "a.b.example.com" = true
    ∧ isDomainAllowed ["example.com"] "notexample.com" = false := by
  decide

/-! ## Claim C4 — empty allow-list -/

/-- C4 counterexample: the claim says an empty allow-list denies nothing,
i.e. `isDomainAllowed` returns `true` for every host; at the concrete
host `example.com` the code returns `false`. -/
theorem empty_allowlist_denies_counterexample :
    isDomainAllowed [] "example.com" = false := by
  decide

/-- C4 (amended): with an empty allow-list `isDomainAllowed` returns
`false` for every host — the loop over `allowedDomains` has no iterations
and the function falls through to `return false` (crawler.go 250-258), so
an empty allow-list denies every host, matching spec §4.2 ("denies
everything") rather than §2 ("denies nothing"). -/
theorem empty_allowlist_denies_everything :
    ∀ host : String, isDomainAllowed [] host = false :=
  fun _ => rfl

/-! ## Claim C5 — fetcher outcome classification -/

/-- C5 counterexample: the claim says any 2xx status yields the body and
content type; at the concrete 2xx status 204 the code
(`resp.StatusCode != http.StatusOK`, crawler.go 177) yields the failure
`"204 status code"` instead of a success. -/
theorem fetch_2xx_counterexample :
    classifyResponse 204 "text/html" "" "BODY" = .failure "204 status code"
    ∧ classifyResponse 204 "text/html" "" "BODY" ≠ .success "BODY" "text/html" := by
  constructor
  · rfl
  · intro h
    exact GetResult.noConfusion h

/-- C5 (amended): a 301, 302 or 308 status yields the `Location` header
value (unresolved) together with the response's content type; a 200
status yields the body and content type; any other status — including
2xx statuses other than 200 — is a failure carrying the numeric status
code (crawler.go 172-187). -/
theorem fetch_classification_amended :
    ∀ (statusCode : Nat) (contentType location body : String),
      ((statusCode = 301 ∨ statusCode = 302 ∨ statusCode = 308) →
        classifyResponse statusCode contentType location body =
          .redirect location contentType)
      ∧ (statusCode = 200 →
        classifyResponse statusCode contentType location body =
          .success body contentType)
      ∧ ((statusCode ≠ 301 ∧ statusCode ≠ 302 ∧ statusCode ≠ 308 ∧ statusCode ≠ 200) →
        classifyResponse statusCode contentType location body =
          .failure (statusMsg statusCode)) := by
  intro st ct loc body
  refine ⟨?_, ?_, ?_⟩
  · rintro (h | h | h) <;> subst h <;> rfl
  · intro h; subst h; rfl
  · rintro ⟨h1, h2, h3, h4⟩
    have e1 : (st == 301 || st == 302 || st == 308) = false := by
      simp only [Bool.or_eq_false_iff, beq_eq_false_iff_ne, ne_eq]
      exact ⟨⟨h1, h2⟩, h3⟩
    have e2 : (st != 200) = true := by
      simp only [bne_iff_ne, ne_eq]
      exact h4
    simp [classifyResponse, e1, e2]

/-- C5 witness: the amended classification applied at the concrete
statuses 302, 200 and 404. -/
theorem fetch_classification_amended_witness :
    classifyResponse 302 "ct" "L" "" = .redirect "L" "ct"
    ∧ classifyResponse 200 "ct" "" "B" = .success "B" "ct"
    ∧ classifyResponse 404 "" "" "" = .failure (statusMsg 404) :=
  ⟨(fetch_classification_amended 302 "ct" "L" "").1 (Or.inr (Or.inl rfl)),
   (fetch_classification_amended 200 "ct" "" "B").2.1 rfl,
   (fetch_classification_amended 404 "" "" "").2.2 (by decide)⟩

/-! ## Write-list view of the markup extractor -/

mutual
/-- Depth-first preorder node list of a tree, in the order the `traverse`
closure of `extractLinksFromHTML` visits nodes. -/
def dfsNode : HNode → List HNode
  | .node e d a cs => .node e d a cs :: dfsForest cs
/-- Depth-first preorder node list of a sibling chain. -/
def dfsForest : HForest → List HNode
  | .nil => []
  | .cons h t => dfsNode h ++ dfsForest t
end

/-- Per-element action of the extraction table (spec §4.4, with the
attribute choice the code actually implements): an `img` element records
its first `src` attribute value with flag `false`; an `a`, `link`,
`iframe`, `embed`, `object`, `source` or `script` element records the
value of its first attribute (in the element's own attribute order) whose
key is `src` or `href`, with flag `true`; a `form` element records its
first `action` attribute value with flag `false`; empty values record
nothing.  The value is resolved against the base URL. -/
def nodeWrite (lib : URLLib) (baseURL : GoURL) : HNode → Option (String × Bool)
  | .node isElem data attrs _ =>
    if isElem then
      if data == "img" then
        let val := getAttributeValue attrs ["src"]
        if val.length > 0 then some (resolveURL lib val baseURL, false) else none
      else if data == "a" || data == "link" || data == "iframe" || data == "embed"
          || data == "object" || data == "source" || data == "script" then
        let val := getAttributeValue attrs ["src", "href"]
        if val.length > 0 then some (resolveURL lib val baseURL, true) else none
      else if data == "form" then
        let val := getAttributeValue attrs ["action"]
        if val.length > 0 then some (resolveURL lib val baseURL, false) else none
      else none
    else none

/-- Apply a list of map writes in order (later writes overwrite). -/
def applyWrites (ws : List (String × Bool)) (m : Lmap) : Lmap :=
  ws.foldl (fun acc w => mapInsert acc w.1 w.2) m

/-- Flag of the last write to key `u` in a write list, if any. -/
def lastOf : List (String × Bool) → String → Option Bool
  | [], _ => none
  | w :: rest, u =>
    match lastOf rest u with
    | some v => some v
    | none => if u = w.1 then some w.2 else none

theorem applyWrites_append (a b : List (String × Bool)) (m : Lmap) :
    applyWrites (a ++ b) m = applyWrites b (applyWrites a m) := by
  simp [applyWrites, List.foldl_append]

theorem applyWrites_cons (w : String × Bool) (l : List (String × Bool)) (m : Lmap) :
    applyWrites (w :: l) m = applyWrites l (mapInsert m w.1 w.2) := rfl

theorem processNode_eq_write (lib : URLLib) (baseURL : GoURL) (e : Bool) (d : String)
    (a : List (String × String)) (cs : HForest) (m : Lmap) :
    processNode lib baseURL e d a m =
      applyWrites (nodeWrite lib baseURL (.node e d a cs)).toList m := by
  simp only [processNode, nodeWrite]
  repeat' split
  all_goals rfl

mutual
/-- The markup traversal threads the map through exactly the writes of
the preorder node list. -/
theorem traverseNode_eq (lib : URLLib) (baseURL : GoURL) :
    ∀ (n : HNode) (m : Lmap),
      traverseNode lib baseURL n m =
        applyWrites ((dfsNode n).filterMap (nodeWrite lib baseURL)) m
  | .node e d a cs, m => by
    rw [traverseNode, processNode_eq_write lib baseURL e d a cs m,
      traverseForest_eq lib baseURL cs, dfsNode, List.filterMap_cons]
    cases hw : nodeWrite lib baseURL (.node e d a cs) <;> rfl
/-- Forest version of `traverseNode_eq`. -/
theorem traverseForest_eq (lib : URLLib) (baseURL : GoURL) :
    ∀ (f : HForest) (m : Lmap),
      traverseForest lib baseURL f m =
        applyWrites ((dfsForest f).filterMap (nodeWrite lib baseURL)) m
  | .nil, m => rfl
  | .cons h t, m => by
    rw [traverseForest, traverseNode_eq lib baseURL h m, traverseForest_eq lib baseURL t,
      dfsForest, List.filterMap_append, applyWrites_append]
end

theorem applyWrites_lookup (ws : List (String × Bool)) :
    ∀ (m : Lmap) (u : String),
      applyWrites ws m u =
        match lastOf ws u with
        | some v => some v
        | none => m u := by
  induction ws with
  | nil => intro m u; rfl
  | cons w rest ih =>
    intro m u
    rw [applyWrites, List.foldl_cons]
    have : List.foldl (fun acc p => mapInsert acc p.1 p.2) (mapInsert m w.1 w.2) rest =
        applyWrites rest (mapInsert m w.1 w.2) := rfl
    rw [this, ih]
    show _ = (match lastOf (w :: rest) u with
      | some v => some v
      | none => m u)
    rw [lastOf]
    cases lastOf rest u with
    | some v => rfl
    | none =>
      by_cases h : u = w.1
      · simp [mapInsert, h]
      · simp [mapInsert, h]

/-! ## Concrete fixtures for evaluation -/

/-- Base URL `http://e/` for concrete extraction examples. -/
def baseE : GoURL := ⟨"http", "e", "/", "", ""⟩

/-- Base URL `http://h/` for concrete extraction examples. -/
def baseH : GoURL := ⟨"http", "h", "/", "", ""⟩

/-- An `a` element whose attribute list carries `href` before `src`
(`<a href="http://e/A" src="http://e/B">`). -/
def attrOrderTree : HNode :=
  .node true "a" [("href", "http://e/A"), ("src", "http://e/B")] .nil

/-- An `a` element whose `href` fails URL resolution
(`<a href=":bad">`; Go's `url.Parse` rejects a leading colon with a
`missing protocol scheme` error). -/
def badRefTree : HNode :=
  .node true "a" [("href", ":bad")] .nil

/-- A body containing an `a` element and then an `img` element that
resolve to the same URL. -/
def aThenImgTree : HNode :=
  .node true "body" []
    (.cons (.node true "a" [("href", "http://e/X")] .nil)
      (.cons (.node true "img" [("src", "http://e/X")] .nil) .nil))

/-- The same two elements with the `img` first and the `a` second. -/
def imgThenATree : HNode :=
  .node true "img" [("src", "http://e/X")]
    (.cons (.node true "a" [("href", "http://e/X")] .nil) .nil)

/-- A JavaScript body containing an absolute URL inside a string literal. -/
def jsBody : String := "var a=\"http://h/y\";"

/-- The tag tree `html.Parse` produces for a body with no markup: the
synthesised `html`, `head` and `body` elements around a text node. -/
def textOnlyTree : HNode :=
  .node true "html" []
    (.cons (.node true "head" [] .nil)
      (.cons (.node true "body" [] (.cons (.node false "text" [] .nil) .nil)) .nil))

/-- A body carrying an HTML meta-refresh directive. -/
def metaBody : String := "<meta http-equiv=\"refresh\" content=\"5; url=/next\">"

/-! ## Claim C6 — HTML extraction table -/

/-- C6 counterexample: the claim says the attribute value of an `a`
element is chosen "with src checked first and href second".  In
`getAttributeValue` (crawler.go 303-313) the outer loop runs over the
element's attributes and the inner loop over the keys, so the first
attribute in document order wins: on `<a href="http://e/A"
src="http://e/B">` the code records `http://e/A` (the `href`), and
records nothing for `http://e/B` (the `src`). -/
theorem extraction_attr_order_counterexample :
    extractLinksFromHTML simpleLib baseE attrOrderTree "http://e/B" = none
    ∧ extractLinksFromHTML simpleLib baseE attrOrderTree "http://e/A" = some true := by
  constructor <;> rfl

/-- C6 (amended): `extractLinksFromHTML` records, in depth-first document
order, for each `img` element its first `src` attribute value (flag
false), for each `a`, `link`, `iframe`, `embed`, `object`, `source` or
`script` element the value of its first attribute in the element's own
attribute order whose key is `src` or `href` (flag true), and for each
`form` element its first `action` attribute value (flag false); empty
values record nothing; each value is resolved against the base URL.
Stated as: the extractor equals the fold of the per-element table actions
(`nodeWrite`) over the preorder element list. -/
theorem extraction_table_refinement :
    ∀ (lib : URLLib) (baseURL : GoURL) (doc : HNode),
      extractLinksFromHTML lib baseURL doc =
        applyWrites ((dfsNode doc).filterMap (nodeWrite lib baseURL)) emptyLmap :=
  fun lib baseURL doc => traverseNode_eq lib baseURL doc emptyLmap

/-! ## Claim C7 — malformed references -/

/-- C7 counterexample: the claim says an attribute value whose resolution
fails produces no candidate entry at all.  In the code the result of
`resolveURL` — which is `""` on failure (crawler.go 278-287) — is
inserted unconditionally (crawler.go 230-233), so `<a href=":bad">`
produces the candidate entry `"" ↦ true` in the extraction mapping. -/
theorem malformed_ref_counterexample :
    simpleLib.resolveRef baseE ":bad" = none
    ∧ extractLinksFromHTML simpleLib baseE badRefTree "" = some true := by
  constructor <;> rfl

/-- C7 (amended): an attribute value whose resolution fails is not
dropped: `resolveURL` returns `""` and the extraction mapping receives an
entry under the empty-string key; resolution failure never makes
extraction fail — on the markup path `extractLinks` fails exactly when
the external HTML parse fails. -/
theorem malformed_ref_amended :
    (∀ (lib : URLLib) (baseURL : GoURL) (ref : String),
      lib.resolveRef baseURL ref = none → resolveURL lib ref baseURL = "")
    ∧ ∀ (lib : URLLib) (parseHTML : String → Option HNode) (baseURL : GoURL)
        (body contentType : String),
        (goContains contentType "/javascript" || goContains contentType "/css") = false →
        (extractLinks lib parseHTML baseURL body contentType = none ↔ parseHTML body = none) := by
  constructor
  · intro lib baseURL ref h
    unfold resolveURL
    rw [h]
  · intro lib parseHTML baseURL body contentType hct
    unfold extractLinks
    rw [hct]
    cases hp : parseHTML body with
    | none => simp
    | some doc =>
      simp only [Bool.false_eq_true, if_false]
      constructor
      · intro h
        split at h <;> exact absurd h (Option.some_ne_none _)
      · intro h
        exact absurd h (Option.some_ne_none _)

/-- C7 witness: the amended statement applied at the concrete failing
reference `:bad` under `simpleLib`, and at a concrete parser that fails. -/
theorem malformed_ref_amended_witness :
    resolveURL simpleLib ":bad" baseE = ""
    ∧ (extractLinks simpleLib (fun _ => none) baseE "x" "text/html" = none
        ↔ (fun _ => (none : Option HNode)) "x" = none) :=
  ⟨malformed_ref_amended.1 simpleLib baseE ":bad" rfl,
   malformed_ref_amended.2 simpleLib (fun _ => none) baseE "x" "text/html" (by decide)⟩

/-! ## Claim C9 — content-type dispatch -/

theorem insertTrueFold_lookup (lib : URLLib) (baseURL : GoURL) (ks : List String) :
    ∀ (m : Lmap) (u : String),
      (ks.foldl (fun newLinks mtch => mapInsert newLinks (resolveURL lib mtch baseURL) true) m) u
        = if u ∈ ks.map (fun mtch => resolveURL lib mtch baseURL) then some true else m u := by
  induction ks with
  | nil => intro m u; simp
  | cons k rest ih =>
    intro m u
    rw [List.foldl_cons, ih]
    by_cases h : u ∈ rest.map (fun mtch => resolveURL lib mtch baseURL)
    · simp [h]
    · by_cases h2 : u = resolveURL lib k baseURL
      · simp [h, h2, mapInsert]
      · simp [h, h2, mapInsert]

/-- C9: a content type containing `/javascript` or `/css` dispatches
`extractLinks` to the generic-text strategy; that strategy resolves every
match of the pattern `https?://[^\s"']+` (the successive non-overlapping
leftmost matches, `FindAllString` semantics) and marks it
`shouldTraverse = true`; in particular the JavaScript body
`var a="http://h/y";` yields the traversal candidate `http://h/y`, while
the same body served as `text/html` goes through the markup strategy and,
on its parse tree (text only, no tags), does not yield that candidate. -/
theorem content_type_dispatch :
    (∀ (lib : URLLib) (parseHTML : String → Option HNode) (baseURL : GoURL)
        (body contentType : String),
      (goContains contentType "/javascript" || goContains contentType "/css") = true →
      extractLinks lib parseHTML baseURL body contentType =
        some (extractLinksFromFile lib body baseURL))
    ∧ (∀ (lib : URLLib) (baseURL : GoURL) (body mtch : String),
        mtch ∈ goFindAllLinks body →
        extractLinksFromFile lib body baseURL (resolveURL lib mtch baseURL) = some true)
    ∧ (extractLinks simpleLib (fun _ => none) baseH jsBody "text/javascript" =
        some (extractLinksFromFile simpleLib jsBody baseH)
       ∧ extractLinksFromFile simpleLib jsBody baseH "http://h/y" = some true)
    ∧ (extractLinks simpleLib (fun _ => some textOnlyTree) baseH jsBody "text/html" =
        some (extractLinksFromHTML simpleLib baseH textOnlyTree)
       ∧ extractLinksFromHTML simpleLib baseH textOnlyTree "http://h/y" = none) := by
  refine ⟨?_, ?_, ⟨?_, ?_⟩, ⟨?_, ?_⟩⟩
  · intro lib parseHTML baseURL body contentType h
    unfold extractLinks
    rw [h]
    rfl
  · intro lib baseURL body mtch hm
    unfold extractLinksFromFile
    rw [insertTrueFold_lookup]
    rw [if_pos (List.mem_map_of_mem _ hm)]
  · rfl
  · rfl
  · rfl
  · rfl

/-- C9 witness: the dispatch rule and the every-match rule applied at the
concrete JavaScript body and the concrete match `http://h/y`. -/
theorem content_type_dispatch_witness :
    extractLinks simpleLib (fun _ => none) baseH jsBody "application/css" =
      some (extractLinksFromFile simpleLib jsBody baseH)
    ∧ extractLinksFromFile simpleLib jsBody baseH
        (resolveURL simpleLib "http://h/y" baseH) = some true :=
  ⟨content_type_dispatch.1 simpleLib (fun _ => none) baseH jsBody "application/css" (by decide),
   content_type_dispatch.2.1 simpleLib baseH jsBody "http://h/y" (by decide)⟩

/-! ## Claim C10 — duplicate-URL flag collision -/

/-- C10: the extraction mapping holds one flag per URL, the one written
last: a lookup in `extractLinksFromHTML` equals the flag of the last
write to that key in the depth-first preorder write list (so the element
encountered later in the document traversal wins), and when a
meta-refresh directive matches, its insertion happens after the whole
tree walk and forces the flag of its resolved target to `true`; on the
concrete trees, a URL referenced by an `a` element and then an `img`
element is marked `false`, and marked `true` with the opposite order. -/
theorem duplicate_flag_last_write :
    (∀ (lib : URLLib) (baseURL : GoURL) (doc : HNode) (u : String),
      extractLinksFromHTML lib baseURL doc u =
        lastOf ((dfsNode doc).filterMap (nodeWrite lib baseURL)) u)
    ∧ (∀ (lib : URLLib) (parseHTML : String → Option HNode) (baseURL : GoURL)
        (body contentType : String) (doc : HNode),
        (goContains contentType "/javascript" || goContains contentType "/css") = false →
        parseHTML body = some doc →
        extractMetaRefresh body ≠ "" →
        extractLinks lib parseHTML baseURL body contentType =
          some (mapInsert (extractLinksFromHTML lib baseURL doc)
            (resolveURL lib (extractMetaRefresh body) baseURL) true)
        ∧ mapInsert (extractLinksFromHTML lib baseURL doc)
            (resolveURL lib (extractMetaRefresh body) baseURL) true
            (resolveURL lib (extractMetaRefresh body) baseURL) = some true)
    ∧ extractLinksFromHTML simpleLib baseE aThenImgTree "http://e/X" = some false
    ∧ extractLinksFromHTML simpleLib baseE imgThenATree "http://e/X" = some true := by
  refine ⟨?_, ?_, ?_, ?_⟩
  · intro lib baseURL doc u
    show traverseNode lib baseURL doc emptyLmap u = _
    rw [traverseNode_eq, applyWrites_lookup]
    cases lastOf ((dfsNode doc).filterMap (nodeWrite lib baseURL)) u <;> rfl
  · intro lib parseHTML baseURL body contentType doc hct hp hne
    constructor
    · unfold extractLinks
      rw [hct, hp]
      have : (extractMetaRefresh body != "") = true := by
        simp only [bne_iff_ne, ne_eq]
        exact hne
      simp [this]
    · simp [mapInsert]
  · rfl
  · rfl

/-- C10 witness: the last-write and meta-refresh parts applied at the
concrete meta-refresh body and the text-only parse tree. -/
theorem duplicate_flag_last_write_witness :
    extractLinks simpleLib (fun _ => some textOnlyTree) baseE metaBody "text/html" =
      some (mapInsert (extractLinksFromHTML simpleLib baseE textOnlyTree)
        (resolveURL simpleLib (extractMetaRefresh metaBody) baseE) true)
    ∧ mapInsert (extractLinksFromHTML simpleLib baseE textOnlyTree)
        (resolveURL simpleLib (extractMetaRefresh metaBody) baseE) true
        (resolveURL simpleLib (extractMetaRefresh metaBody) baseE) = some true :=
  duplicate_flag_last_write.2.1 simpleLib (fun _ => some textOnlyTree) baseE metaBody
    "text/html" textOnlyTree (by decide) rfl (by decide)

/-! ## Registry lemmas for the crawl transition system -/

/-- Registry invariant: the key list is duplicate-free and every key
parses to a URL whose host passes the domain policy. -/
def RegOK (cfg : CrawlCfg) (reg : List String) : Prop :=
  reg.Nodup ∧ ∀ k ∈ reg, isDomainAllowedForLink cfg.lib cfg.allowedDomains k = true

theorem regInsert_mem (reg : List String) (k x : String) (hx : x ∈ reg) :
    x ∈ regInsert reg k := by
  unfold regInsert
  split
  · exact hx
  · exact List.mem_cons_of_mem _ hx

theorem regInsert_ok (cfg : CrawlCfg) (reg : List String) (k : String)
    (hok : RegOK cfg reg)
    (hk : isDomainAllowedForLink cfg.lib cfg.allowedDomains k = true) :
    RegOK cfg (regInsert reg k) := by
  unfold regInsert
  by_cases hmem : k ∈ reg
  · rw [if_pos hmem]; exact hok
  · rw [if_neg hmem]
    refine ⟨List.nodup_cons.2 ⟨hmem, hok.1⟩, ?_⟩
    intro x hx
    rcases List.mem_cons.1 hx with h | h
    · subst h; exact hk
    · exact hok.2 x h

theorem leafStep_fst_mem (cfg : CrawlCfg) (acc : List String × List String)
    (e : String × Bool) (x : String) (hx : x ∈ acc.1) : x ∈ (leafStep cfg acc e).1 := by
  unfold leafStep
  cases he : e.2
  · by_cases ha : isDomainAllowedForLink cfg.lib cfg.allowedDomains e.1 = true
    · simp only [Bool.false_eq_true, if_false, ha, if_true]
      exact regInsert_mem _ _ _ hx
    · simp only [Bool.false_eq_true, if_false, if_neg ha]
      exact hx
  · simp only [if_true]
    exact hx

theorem leafStep_fst_ok (cfg : CrawlCfg) (acc : List String × List String)
    (e : String × Bool) (hok : RegOK cfg acc.1) : RegOK cfg (leafStep cfg acc e).1 := by
  unfold leafStep
  cases he : e.2
  · by_cases ha : isDomainAllowedForLink cfg.lib cfg.allowedDomains e.1 = true
    · simp only [Bool.false_eq_true, if_false, ha, if_true]
      exact regInsert_ok cfg _ _ hok ha
    · simp only [Bool.false_eq_true, if_false, if_neg ha]
      exact hok
  · simp only [if_true]
    exact hok

theorem leafFold_fst_mem (cfg : CrawlCfg) (entries : List (String × Bool)) :
    ∀ (acc : List String × List String) (x : String), x ∈ acc.1 →
      x ∈ (entries.foldl (leafStep cfg) acc).1 := by
  induction entries with
  | nil => intro acc x hx; exact hx
  | cons e rest ih =>
    intro acc x hx
    rw [List.foldl_cons]
    exact ih _ x (leafStep_fst_mem cfg acc e x hx)

theorem leafFold_fst_ok (cfg : CrawlCfg) (entries : List (String × Bool)) :
    ∀ acc : List String × List String, RegOK cfg acc.1 →
      RegOK cfg ((entries.foldl (leafStep cfg) acc).1) := by
  induction entries with
  | nil => intro acc h; exact h
  | cons e rest ih =>
    intro acc h
    rw [List.foldl_cons]
    exact ih _ (leafStep_fst_ok cfg acc e h)

theorem leafFold_snd_indep (cfg : CrawlCfg) (entries : List (String × Bool)) :
    ∀ (r1 r2 links : List String),
      (entries.foldl (leafStep cfg) (r1, links)).2
        = (entries.foldl (leafStep cfg) (r2, links)).2 := by
  induction entries with
  | nil => intro r1 r2 links; rfl
  | cons e rest ih =>
    intro r1 r2 links
    rw [List.foldl_cons, List.foldl_cons]
    cases he : e.2
    · by_cases ha : isDomainAllowedForLink cfg.lib cfg.allowedDomains e.1 = true
      · simp only [leafStep, he, Bool.false_eq_true, if_false, ha, if_true]
        exact ih _ _ links
      · simp only [leafStep, he, Bool.false_eq_true, if_false, if_neg ha]
        exact ih _ _ links
    · simp only [leafStep, he, if_true]
      exact ih _ _ (links ++ [e.1])

theorem finishResult_fst_mem (cfg : CrawlCfg) (reg : List String) (u : String) :
    ∀ x ∈ reg, x ∈ (finishResult cfg reg u).1 := by
  intro x hx
  unfold finishResult
  cases hp : cfg.lib.parse u with
  | none => exact hx
  | some b =>
    cases ho : cfg.outcome u with
    | fetchErr => exact hx
    | extractFail => exact hx
    | redirect loc => exact hx
    | page entries => exact leafFold_fst_mem cfg entries (reg, []) x hx

theorem finishResult_fst_ok (cfg : CrawlCfg) (reg : List String) (u : String)
    (hok : RegOK cfg reg) : RegOK cfg (finishResult cfg reg u).1 := by
  unfold finishResult
  cases hp : cfg.lib.parse u with
  | none => exact hok
  | some b =>
    cases ho : cfg.outcome u with
    | fetchErr => exact hok
    | extractFail => exact hok
    | redirect loc => exact hok
    | page entries => exact leafFold_fst_ok cfg entries (reg, []) hok

theorem finishResult_snd_indep (cfg : CrawlCfg) (reg : List String) (u : String) :
    (finishResult cfg reg u).2 = spawnOf cfg u := by
  unfold spawnOf finishResult
  cases hp : cfg.lib.parse u with
  | none => rfl
  | some b =>
    cases ho : cfg.outcome u with
    | fetchErr => rfl
    | extractFail => rfl
    | redirect loc => rfl
    | page entries =>
      exact congrArg uniqueStrings (leafFold_snd_indep cfg entries reg [] [])

theorem startResult_mem (cfg : CrawlCfg) (reg : List String) (u : String) (h : u ∈ reg) :
    startResult cfg reg u = (reg, [], false) := by
  unfold startResult
  rw [if_pos h]

theorem startResult_cases (cfg : CrawlCfg) (reg : List String) (u : String) :
    startResult cfg reg u = (reg, [], false)
    ∨ (startResult cfg reg u = (u :: reg, [CTask.finish u], true)
       ∧ u ∉ reg ∧ isDomainAllowedForLink cfg.lib cfg.allowedDomains u = true) := by
  by_cases hmem : u ∈ reg
  · left; exact startResult_mem cfg reg u hmem
  · unfold startResult
    rw [if_neg hmem]
    cases hp : cfg.lib.parse u with
    | none => left; rfl
    | some b =>
      by_cases hd : isDomainAllowed cfg.allowedDomains b.host = true
      · right
        refine ⟨by dsimp only; rw [if_pos hd], hmem, ?_⟩
        unfold isDomainAllowedForLink
        rw [hp]
        exact hd
      · left
        dsimp only
        rw [if_neg hd]

/-! ## Run invariant -/

/-- Run invariant: the registry is well-formed, the fetched-URL trace has
no duplicates, and every fetched URL is a registry key. -/
def FetchInv (cfg : CrawlCfg) (fs : List String) (s : CrawlState) : Prop :=
  RegOK cfg s.reg ∧ fs.Nodup ∧ ∀ u ∈ fs, u ∈ s.reg

theorem step_preserves_inv (cfg : CrawlCfg) {s s' : CrawlState} {fs ev : List String}
    (hinv : FetchInv cfg fs s) (hstep : Step cfg s ev s') :
    FetchInv cfg (fs ++ ev) s' := by
  cases hstep with
  | startT reg l1 l2 u =>
    rcases startResult_cases cfg reg u with hc | ⟨hc, hmem, hall⟩
    · rw [hc]
      refine ⟨hinv.1, by simpa using hinv.2.1, ?_⟩
      intro v hv
      exact hinv.2.2 v (by simpa using hv)
    · rw [hc]
      have hufs : u ∉ fs := fun hu => hmem (hinv.2.2 u hu)
      refine ⟨⟨List.nodup_cons.2 ⟨hmem, hinv.1.1⟩, ?_⟩, ?_, ?_⟩
      · intro x hx
        rcases List.mem_cons.1 hx with h | h
        · subst h; exact hall
        · exact hinv.1.2 x h
      · simp only [if_true]
        refine List.nodup_append.2 ⟨hinv.2.1, List.nodup_singleton u, ?_⟩
        intro a ha hb
        rw [List.mem_singleton] at hb
        subst hb
        exact hufs ha
      · intro v hv
        simp only [if_true] at hv
        rcases List.mem_append.1 hv with h | h
        · exact List.mem_cons_of_mem _ (hinv.2.2 v h)
        · rw [List.mem_singleton] at h
          subst h
          exact List.mem_cons_self _ _
  | finishT reg l1 l2 u =>
    refine ⟨finishResult_fst_ok cfg reg u hinv.1, by simpa using hinv.2.1, ?_⟩
    intro v hv
    exact finishResult_fst_mem cfg reg u v (hinv.2.2 v (by simpa using hv))

theorem reach_preserves_inv (cfg : CrawlCfg) {s0 s : CrawlState} {fs : List String}
    (h : Reach cfg s0 fs s) (hinv0 : FetchInv cfg [] s0) : FetchInv cfg fs s := by
  induction h with
  | refl => exact hinv0
  | step hr hs ih => exact step_preserves_inv cfg ih hs

theorem init_inv (cfg : CrawlCfg) (u0 : String) : FetchInv cfg [] (initState u0) :=
  ⟨⟨List.nodup_nil, fun k hk => absurd hk (List.not_mem_nil k)⟩,
   List.nodup_nil, fun u hu => absurd hu (List.not_mem_nil u)⟩

/-! ## Claim C1 — dedup invariant -/

/-- C1: along every crawl run, the registry holds at most one entry per
URL (its key list is duplicate-free); a `crawlURL` admission whose link
is already a key leaves the whole shared state unchanged, spawns nothing
and does not fetch (`startResult` returns `(reg, [], false)`); and every
URL occurs at most once in the trace of fetched URLs, i.e. each distinct
URL is fetched at most once per run. -/
theorem dedup_invariant (cfg : CrawlCfg) (u0 : String) (fs : List String) (s : CrawlState)
    (h : Reach cfg (initState u0) fs s) :
    s.reg.Nodup
    ∧ (∀ u ∈ s.reg, startResult cfg s.reg u = (s.reg, [], false))
    ∧ (∀ u : String, fs.count u ≤ 1) := by
  have hinv := reach_preserves_inv cfg h (init_inv cfg u0)
  refine ⟨hinv.1.1, ?_, ?_⟩
  · intro u hu
    exact startResult_mem cfg s.reg u hu
  · exact List.nodup_iff_count_le_one.1 hinv.2.1

/-! ## Claim C8 — registry admission gate -/

/-- C8: at every reachable state of a crawl run, every key of the
registry is a parseable URL whose host passes the domain policy, and
every URL ever fetched is such a URL as well — an unparseable or
disallowed candidate (seed, traversal candidate, or direct leaf entry) is
never inserted and never fetched. -/
theorem admission_gate (cfg : CrawlCfg) (u0 : String) (fs : List String) (s : CrawlState)
    (h : Reach cfg (initState u0) fs s) :
    (∀ k ∈ s.reg, ∃ b : GoURL, cfg.lib.parse k = some b
      ∧ isDomainAllowed cfg.allowedDomains b.host = true)
    ∧ ∀ u ∈ fs, ∃ b : GoURL, cfg.lib.parse u = some b
      ∧ isDomainAllowed cfg.allowedDomains b.host = true := by
  have hinv := reach_preserves_inv cfg h (init_inv cfg u0)
  have conv : ∀ k : String,
      isDomainAllowedForLink cfg.lib cfg.allowedDomains k = true →
      ∃ b : GoURL, cfg.lib.parse k = some b
        ∧ isDomainAllowed cfg.allowedDomains b.host = true := by
    intro k hk
    unfold isDomainAllowedForLink at hk
    cases hp : cfg.lib.parse k with
    | none => rw [hp] at hk; exact absurd hk (by simp)
    | some b => rw [hp] at hk; exact ⟨b, rfl, hk⟩
  exact ⟨fun k hk => conv k (hinv.1.2 k hk),
    fun u hu => conv u (hinv.1.2 u (hinv.2.2 u hu))⟩

/-! ## Concrete two-page cyclic site -/

/-- Concrete configuration of a two-page site with a link cycle:
`http://h/a` links to `http://h/b` and `http://h/b` links back to
`http://h/a`; the allow-list holds the host `h`. -/
def cfgCycle : CrawlCfg :=
  ⟨simpleLib, ["h"],
   fun u =>
     if u == "http://h/a" then .page [("http://h/b", true)]
     else if u == "http://h/b" then .page [("http://h/a", true)]
     else .fetchErr⟩

theorem cycle_step1 :
    Step cfgCycle (initState "http://h/a") ["http://h/a"]
      ⟨["http://h/a"], [CTask.finish "http://h/a"]⟩ :=
  Step.startT [] [] [] "http://h/a"

theorem cycle_reach1 :
    Reach cfgCycle (initState "http://h/a") ["http://h/a"]
      ⟨["http://h/a"], [CTask.finish "http://h/a"]⟩ :=
  Reach.step (Reach.refl (initState "http://h/a")) cycle_step1

/-- C1 witness: the dedup invariant applied to the concrete one-step run
of `cfgCycle` that admits and fetches the seed. -/
theorem dedup_invariant_witness :
    (["http://h/a"] : List String).Nodup
    ∧ (∀ u ∈ (["http://h/a"] : List String),
        startResult cfgCycle ["http://h/a"] u = (["http://h/a"], [], false))
    ∧ (∀ u : String, (["http://h/a"] : List String).count u ≤ 1) :=
  dedup_invariant cfgCycle "http://h/a" ["http://h/a"]
    ⟨["http://h/a"], [CTask.finish "http://h/a"]⟩ cycle_reach1

/-- C8 witness: the admission gate applied to the same concrete run. -/
theorem admission_gate_witness :
    (∀ k ∈ (["http://h/a"] : List String), ∃ b : GoURL,
      cfgCycle.lib.parse k = some b
      ∧ isDomainAllowed cfgCycle.allowedDomains b.host = true)
    ∧ ∀ u ∈ (["http://h/a"] : List String), ∃ b : GoURL,
      cfgCycle.lib.parse u = some b
      ∧ isDomainAllowed cfgCycle.allowedDomains b.host = true :=
  admission_gate cfgCycle "http://h/a" ["http://h/a"]
    ⟨["http://h/a"], [CTask.finish "http://h/a"]⟩ cycle_reach1

/-! ## Termination of a crawl run -/

/-- Weight of a task for the termination measure: a pending admission
weighs 1, an admitted task's continuation weighs `F + 2`, where `F`
bounds the fan-out of any URL in the universe. -/
def wTask (F : Nat) : CTask → Nat
  | .start _ => 1
  | .finish _ => F + 2

/-- Total weight of the scheduled tasks. -/
def wsum (F : Nat) (ts : List CTask) : Nat :=
  (ts.map (wTask F)).sum

theorem wsum_append (F : Nat) (a b : List CTask) :
    wsum F (a ++ b) = wsum F a + wsum F b := by
  simp [wsum]

theorem wsum_cons (F : Nat) (t : CTask) (ts : List CTask) :
    wsum F (t :: ts) = wTask F t + wsum F ts := by
  simp [wsum]

theorem wsum_nil (F : Nat) : wsum F [] = 0 := rfl

theorem wsum_map_start (F : Nat) (l : List String) :
    wsum F (l.map CTask.start) = l.length := by
  induction l with
  | nil => rfl
  | cons x xs ih =>
    rw [List.map_cons, wsum_cons, ih]
    simp [wTask]
    omega

/-- Number of universe URLs not yet admitted. -/
def missing (U : Finset String) (reg : List String) : Nat :=
  (U.filter (fun v => v ∉ reg)).card

theorem missing_mono (U : Finset String) {reg reg' : List String}
    (h : ∀ k ∈ reg, k ∈ reg') : missing U reg' ≤ missing U reg := by
  apply Finset.card_le_card
  intro v hv
  rw [Finset.mem_filter] at hv ⊢
  exact ⟨hv.1, fun hmem => hv.2 (h v hmem)⟩

theorem missing_cons_lt (U : Finset String) {reg : List String} {u : String}
    (hU : u ∈ U) (hreg : u ∉ reg) : missing U (u :: reg) < missing U reg := by
  apply Finset.card_lt_card
  rw [Finset.ssubset_iff_of_subset]
  · refine ⟨u, Finset.mem_filter.2 ⟨hU, hreg⟩, ?_⟩
    rw [Finset.mem_filter]
    rintro ⟨-, hnot⟩
    exact hnot (List.mem_cons_self u reg)
  · intro v hv
    rw [Finset.mem_filter] at hv ⊢
    exact ⟨hv.1, fun hm => hv.2 (List.mem_cons_of_mem _ hm)⟩

/-- Termination measure of a crawl state over a finite URL universe `U`
with fan-out bound `F`. -/
def measureOf (U : Finset String) (F : Nat) (s : CrawlState) : Nat :=
  (F + 2) * missing U s.reg + wsum F s.tasks

/-- Scheduling invariant: every scheduled task works on a universe URL. -/
def TasksIn (U : Finset String) (s : CrawlState) : Prop :=
  ∀ t ∈ s.tasks, taskURL t ∈ U

theorem step_decrease (cfg : CrawlCfg) (U : Finset String) (F : Nat)
    (hclo : ∀ u ∈ U, ∀ v ∈ spawnOf cfg u, v ∈ U)
    (hF : ∀ u ∈ U, (spawnOf cfg u).length ≤ F)
    {s s' : CrawlState} {ev : List String}
    (hT : TasksIn U s) (hstep : Step cfg s ev s') :
    TasksIn U s' ∧ measureOf U F s' < measureOf U F s := by
  cases hstep with
  | startT reg l1 l2 u =>
    have hu : u ∈ U := hT (CTask.start u) (by simp)
    rcases startResult_cases cfg reg u with hc | ⟨hc, hmem, hall⟩
    · rw [hc]
      constructor
      · intro t ht
        apply hT
        simp only [List.mem_append, List.mem_cons] at ht ⊢
        tauto
      · unfold measureOf
        dsimp only
        simp only [wsum_append, wsum_cons, wsum_nil, wTask]
        linarith
    · rw [hc]
      constructor
      · intro t ht
        simp only [List.mem_append, List.mem_cons] at ht
        rcases ht with (h | h) | h
        · exact hT t (by simp [h])
        · rcases h with h | h
          · subst h; exact hu
          · exact absurd h (List.not_mem_nil t)
        · exact hT t (by simp [h])
      · unfold measureOf
        dsimp only
        simp only [wsum_append, wsum_cons, wsum_nil, wTask]
        have hmul : (F + 2) * missing U (u :: reg) + (F + 2)
            ≤ (F + 2) * missing U reg := by
          have hlt : missing U (u :: reg) + 1 ≤ missing U reg :=
            missing_cons_lt U hu hmem
          calc (F + 2) * missing U (u :: reg) + (F + 2)
              = (F + 2) * (missing U (u :: reg) + 1) := by ring
            _ ≤ (F + 2) * missing U reg := Nat.mul_le_mul_left _ hlt
        linarith
  | finishT reg l1 l2 u =>
    have hu : u ∈ U := hT (CTask.finish u) (by simp)
    have hspawn : (finishResult cfg reg u).2 = spawnOf cfg u :=
      finishResult_snd_indep cfg reg u
    constructor
    · intro t ht
      simp only [List.mem_append, List.mem_cons] at ht
      rcases ht with (h | h) | h
      · exact hT t (by simp [h])
      · rcases List.mem_map.1 h with ⟨v, hv, hvt⟩
        subst hvt
        rw [hspawn] at hv
        exact hclo u hu v hv
      · exact hT t (by simp [h])
    · unfold measureOf
      dsimp only
      simp only [wsum_append, wsum_cons, wsum_nil, wsum_map_start, wTask]
      have hlen : (finishResult cfg reg u).2.length ≤ F := by
        rw [hspawn]
        exact hF u hu
      have hmiss : missing U (finishResult cfg reg u).1 ≤ missing U reg :=
        missing_mono U (finishResult_fst_mem cfg reg u)
      have hmul : (F + 2) * missing U (finishResult cfg reg u).1
          ≤ (F + 2) * missing U reg :=
        Nat.mul_le_mul_left _ hmiss
      linarith

theorem acc_of_bound (cfg : CrawlCfg) (U : Finset String) (F : Nat)
    (hclo : ∀ u ∈ U, ∀ v ∈ spawnOf cfg u, v ∈ U)
    (hF : ∀ u ∈ U, (spawnOf cfg u).length ≤ F) :
    ∀ (n : Nat) (s : CrawlState), TasksIn U s → measureOf U F s ≤ n →
      Acc (fun s2 s1 => ∃ ev, Step cfg s1 ev s2) s := by
  intro n
  induction n with
  | zero =>
    intro s hT hle
    constructor
    intro s2 hrel
    rcases hrel with ⟨ev, hstep⟩
    have hd := (step_decrease cfg U F hclo hF hT hstep).2
    exact absurd (Nat.lt_of_lt_of_le hd hle) (Nat.not_lt_zero _)
  | succ n ih =>
    intro s hT hle
    constructor
    intro s2 hrel
    rcases hrel with ⟨ev, hstep⟩
    have hd := step_decrease cfg U F hclo hF hT hstep
    exact ih s2 hd.1 (by omega)

theorem crawl_progress (cfg : CrawlCfg) (s : CrawlState) (h : s.tasks ≠ []) :
    ∃ ev s2, Step cfg s ev s2 := by
  obtain ⟨reg, tasks⟩ := s
  cases tasks with
  | nil => exact absurd rfl h
  | cons t rest =>
    cases t with
    | start u => exact ⟨_, _, Step.startT reg [] rest u⟩
    | finish u => exact ⟨_, _, Step.finishT reg [] rest u⟩

/-! ## Claim C2 — termination -/

/-- C2: over a finite link graph — a finite universe `U` containing the
seed and closed under the URLs each page's processing schedules, with a
fan-out bound `F` — the crawl transition system admits no infinite run
from the initial state (the initial state is accessible under the
successor relation), and every state with outstanding work can take a
step; hence every maximal run is finite and ends with the outstanding
task list empty, which is when `sync.WaitGroup` releases `Crawl`.  This
covers cyclic graphs such as A→B→A, the admission no-op cutting the
cycle. -/
theorem crawl_terminates (cfg : CrawlCfg) (u0 : String) (U : Finset String) (F : Nat)
    (h0 : u0 ∈ U)
    (hclo : ∀ u ∈ U, ∀ v ∈ spawnOf cfg u, v ∈ U)
    (hF : ∀ u ∈ U, (spawnOf cfg u).length ≤ F) :
    Acc (fun s2 s1 => ∃ ev, Step cfg s1 ev s2) (initState u0)
    ∧ ∀ s : CrawlState, s.tasks ≠ [] → ∃ ev s2, Step cfg s ev s2 := by
  constructor
  · apply acc_of_bound cfg U F hclo hF (measureOf U F (initState u0))
    · intro t ht
      rw [initState] at ht
      rcases List.mem_singleton.1 ht with h
      subst h
      exact h0
    · exact Nat.le_refl _
  · intro s hs
    exact crawl_progress cfg s hs

/-- C2 witness: termination of the concrete cyclic two-page site
(A links to B, B links back to A), with universe of the two URLs and
fan-out bound 1. -/
theorem crawl_terminates_witness :
    Acc (fun s2 s1 => ∃ ev, Step cfgCycle s1 ev s2) (initState "http://h/a")
    ∧ ∀ s : CrawlState, s.tasks ≠ [] → ∃ ev s2, Step cfgCycle s ev s2 :=
  crawl_terminates cfgCycle "http://h/a" {"http://h/a", "http://h/b"} 1
    (by decide) (by decide) (by decide)

end Crawler
